import Mathlib

/-!
Shallow embedding of `lighthouse-core/computed/unused-javascript-summary.js`
(class `UnusedJavascriptSummary`) and proofs about it.

Modelling conventions:
- JS numbers that are always integral byte offsets are modelled as `Int`
  (the upstream protocol allows arbitrary numbers, and negative offsets are
  discussed by the spec), execution counts as `Nat`.
- A `Uint8Array` of 0/1 flags is modelled as a `List Bool`; the JS read
  `arr[i] === 1` at a negative, fractional-NaN or out-of-bounds index yields
  `undefined === 1 = false`, modelled by `testOffset` below.
- Division, `Math.round` and the `|| 0` guard work on JS doubles which can be
  `NaN` or `±Infinity`; the type `JSNum` models exactly the values that can
  arise here (a finite rational, `±Infinity`, `NaN`).
- A JS string is modelled as its sequence of code units, `List Char`
  (all concrete inputs below are ASCII, where the two notions agree);
  `content.split('\n')` is modelled by `splitLines`.
- A JS plain object used as a string-keyed record is modelled as an
  association list in property insertion order (`recordIncr` models
  `files[k] = (files[k] || 0) + 1`).  JS objects deviate from pure insertion
  order only for integer-like keys, which is out of scope for URL keys.
- `Array.prototype.sort` with comparator `(a, b) => b.count - a.count` is a
  stable descending sort; it is modelled with `List.insertionSort` and the
  total preorder "has a count ≥ the other", which is the same stable sort.
- The external collaborator `ByteEfficiencyAudit.estimateTransferSize` is a
  parameter `estimateTransferSize`; `bundle.map.mappings()` after
  `computeLastGeneratedColumns()` is modelled as the field `Bundle.mappings`
  with the resolved `lastColumnNumber` stored on each entry (`none` models
  an `undefined` last column).
- The field `sourcesWastedBytes : Option (Option _)` of `Summary`
  distinguishes a JS object on which the property is absent (`none`) from one
  that carries the property with value `undefined` (`some none`): the two are
  observably different in JS (property enumeration, the `in` operator).
-/

namespace UnusedJS

/-- One coverage range: `{startOffset, endOffset, count}` from
`LH.Crdp.Profiler.ScriptCoverage`. -/
structure Range where
  startOffset : Int
  endOffset : Int
  count : Nat
deriving DecidableEq

/-- One function coverage entry; only its `ranges` are read by the code. -/
structure FunctionCoverage where
  ranges : List Range
deriving DecidableEq

/-- One execution, its script coverage; only `functions` is read. -/
structure ScriptCoverage where
  functions : List FunctionCoverage
deriving DecidableEq

/-- The `WasteData` typedef of the source. -/
structure WasteData where
  unusedByIndex : List Bool
  unusedLength : Nat
  contentLength : Nat
deriving DecidableEq

/-- The network record; only its `url` is read directly by this module
(the transfer-size estimator receives the whole record). -/
structure NetworkRecord where
  url : String
deriving DecidableEq

/-- Return value of `determineLengths`. -/
structure Lengths where
  content : Nat
  unused : Nat
  transfer : Rat
deriving DecidableEq

/-- One entry of `bundle.map.mappings()` after
`computeLastGeneratedColumns()`: `lastColumnNumber = none` models the
`undefined` last column of the final mapping on a line. -/
structure SourceMapEntry where
  lineNumber : Nat
  columnNumber : Int
  lastColumnNumber : Option Int
  sourceURL : String
deriving DecidableEq

/-- Model of `bundle.script`: the raw generated text, `none` for missing content. -/
structure Script where
  content : Option (List Char)
deriving DecidableEq

/-- Model of `LH.Artifacts.Bundle`, reduced to the two capabilities the code uses. -/
structure Bundle where
  script : Script
  mappings : List SourceMapEntry
deriving DecidableEq

/-- The JS double values reachable in this module: a finite rational,
the two infinities, or NaN. -/
inductive JSNum where
  | num (q : Rat)
  | posInf
  | negInf
  | nan
deriving DecidableEq

/-- The `Summary` typedef.  `sourcesWastedBytes = none` models an object
without the property; `some none` models the property present with value
`undefined`; `some (some m)` models the property holding the mapping `m`. -/
structure Summary where
  url : String
  totalBytes : Rat
  wastedBytes : JSNum
  wastedPercent : JSNum
  sourcesWastedBytes : Option (Option (List (String × Nat)))
deriving DecidableEq

/-- The `ComputeInput` typedef. -/
structure ComputeInput where
  networkRecord : NetworkRecord
  scriptCoverages : List ScriptCoverage
  bundle : Option Bundle

/-- All ranges of all functions, in iteration order of the two nested
`for` loops of the source. -/
def allRanges (scriptCoverage : ScriptCoverage) : List Range :=
  scriptCoverage.functions.flatMap (fun f => f.ranges)

/-- Helper for `markRange`: the element at list position `i` corresponds to
byte offset `idx + i`. -/
def markRangeAux (idx : Nat) (s e : Int) : List Bool → List Bool
  | [] => []
  | b :: rest =>
      (if s ≤ (idx : Int) ∧ (idx : Int) < e then true else b) :: markRangeAux (idx + 1) s e rest

/-- The loop `for (let i = range.startOffset; i < range.endOffset; i++)
unusedByIndex[i] = 1;`: offsets inside `[s, e)` are set; a `Uint8Array`
silently drops writes at negative indices, which the `0 ≤ index` side of the
position arithmetic models. -/
def markRange (bm : List Bool) (s e : Int) : List Bool :=
  markRangeAux 0 s e bm

/-- The method `UnusedJavascriptSummary.computeWaste`.  Here `maximumEndOffset` is the
`Math.max` fold started at 0; the bitmap is a `Uint8Array` of that length
(all zero), marked by each zero-count range in iteration order;
`unusedLength` is the sum of the 0/1 entries, i.e. the number of `true`
bits. -/
def computeWaste (scriptCoverage : ScriptCoverage) : WasteData :=
  let maximumEndOffset : Int :=
    (allRanges scriptCoverage).foldl (fun m r => max m r.endOffset) 0
  let unusedByIndex : List Bool :=
    (allRanges scriptCoverage).foldl
      (fun bm r => if r.count = 0 then markRange bm r.startOffset r.endOffset else bm)
      (List.replicate maximumEndOffset.toNat false)
  { unusedByIndex := unusedByIndex
    unusedLength := unusedByIndex.count true
    contentLength := maximumEndOffset.toNat }

/-- The accumulation loop `for (const usage of wasteData) unused +=
usage.unusedLength;` shared verbatim by `mergeWaste` and
`determineLengths`. -/
def totalUnused (wasteData : List WasteData) : Nat :=
  wasteData.foldl (fun a u => a + u.unusedLength) 0

/-- The accumulation loop `for (const usage of wasteData) content +=
usage.contentLength;` shared verbatim by `mergeWaste` and
`determineLengths`. -/
def totalContent (wasteData : List WasteData) : Nat :=
  wasteData.foldl (fun a u => a + u.contentLength) 0

/-- JS division `unused / content` on the two non-negative integers of
`mergeWaste`: `0/0 = NaN`, `n/0 = Infinity` for `n > 0`, otherwise the exact
rational. -/
def jsDiv (unused content : Nat) : JSNum :=
  if content = 0 then (if unused = 0 then JSNum.nan else JSNum.posInf)
  else JSNum.num ((unused : Rat) / (content : Rat))

/-- JS `x || 0` on a number: `NaN` (and `0` itself) are falsy and give `0`;
every other value, including `Infinity`, is returned unchanged. -/
def jsOrZero : JSNum → JSNum
  | JSNum.nan => JSNum.num 0
  | x => x

/-- JS multiplication of a finite number `q` by a `JSNum`:
`q * ±Infinity` keeps the sign for `q ≠ 0` and is `NaN` for `q = 0`. -/
def jsMulQ (q : Rat) : JSNum → JSNum
  | JSNum.num r => JSNum.num (q * r)
  | JSNum.posInf =>
      if 0 < q then JSNum.posInf else if q < 0 then JSNum.negInf else JSNum.nan
  | JSNum.negInf =>
      if 0 < q then JSNum.negInf else if q < 0 then JSNum.posInf else JSNum.nan
  | JSNum.nan => JSNum.nan

/-- JS `Math.round`: half-up (towards `+Infinity`) on finite values,
identity on `±Infinity` and `NaN`. -/
def jsRound : JSNum → JSNum
  | JSNum.num q => JSNum.num ((⌊q + 1 / 2⌋ : Int) : Rat)
  | x => x

/-- The expression `(unused / content) || 0` of `mergeWaste`. -/
def wastedRatioOf (unused content : Nat) : JSNum :=
  jsOrZero (jsDiv unused content)

/-- The method `UnusedJavascriptSummary.mergeWaste`.  The returned object carries no
`sourcesWastedBytes` property at all (`none`). -/
def mergeWaste (wasteData : List WasteData) (url : String) (lengths : Lengths) : Summary :=
  let wastedRatioVal := wastedRatioOf (totalUnused wasteData) (totalContent wasteData)
  { url := url
    totalBytes := lengths.transfer
    wastedBytes := jsRound (jsMulQ lengths.transfer wastedRatioVal)
    wastedPercent := jsMulQ 100 wastedRatioVal
    sourcesWastedBytes := none }

/-- The method `UnusedJavascriptSummary.determineLengths`, with the external
`ByteEfficiencyAudit.estimateTransferSize` passed as a parameter; the source
calls it with the network record, the summed content length and the resource
kind tag Script. -/
def determineLengths (estimateTransferSize : NetworkRecord → Nat → String → Rat)
    (wasteData : List WasteData) (networkRecord : NetworkRecord) : Lengths :=
  { content := totalContent wasteData
    unused := totalUnused wasteData
    transfer := estimateTransferSize networkRecord (totalContent wasteData) "Script" }

/-- JS `content.split('\n')` on a string modelled as a character list;
the empty string splits to `[""]`, matching JS. -/
def splitLines : List Char → List (List Char)
  | [] => [[]]
  | c :: rest =>
      let r := splitLines rest
      if c = '\n' then [] :: r
      else
        match r with
        | [] => [[c]]
        | line :: rest2 => (c :: line) :: rest2

/-- The running-total `map` of the source building `lineOffsets` from
`lineLengths` (`totalSoFar += len + 1`, the `+1` for the line terminator). -/
def lineOffsetsFrom (totalSoFar : Nat) : List Nat → List Nat
  | [] => []
  | len :: rest => totalSoFar :: lineOffsetsFrom (totalSoFar + len + 1) rest

/-- The read `data.unusedByIndex[offset] === 1`.  `none` models a `NaN`
offset (undefined line offset propagated through the addition); a negative
or out-of-bounds index reads `undefined`, which is not `=== 1`. -/
def testOffset (d : WasteData) (o : Option Int) : Bool :=
  match o with
  | none => false
  | some i => if i < 0 then false else d.unusedByIndex.getD i.toNat false

/-- The expression
`(mapping.lastColumnNumber - 1) || lineLengths[mapping.lineNumber]`:
when `lastColumnNumber` is `undefined` the left side is `NaN` (falsy), and
when it equals 1 the left side is `0` (falsy); in both cases the line length
(possibly `undefined`, i.e. `none`) is used instead. -/
def lastColumnOfMapping (lastColumnNumber : Option Int) (lineLength : Option Nat) : Option Int :=
  match lastColumnNumber with
  | some c => if c - 1 = 0 then lineLength.map Int.ofNat else some (c - 1)
  | none => lineLength.map Int.ofNat

/-- The loop counter values of `for (let i = mapping.columnNumber;
i <= lastColumnOfMapping; i++)`; a comparison with an `undefined` bound
(`none`) is false, so the loop body never runs. -/
def testedCols (col : Int) (lastCol : Option Int) : List Int :=
  match lastCol with
  | none => []
  | some last =>
      if last < col then []
      else (List.range (last - col + 1).toNat).map (fun (k : Nat) => col + (k : Int))

/-- The update `files[mapping.sourceURL] = (files[mapping.sourceURL] || 0) + 1` on a
plain JS object in insertion order: an existing key is updated in place, a
new key is appended. -/
def recordIncr (files : List (String × Nat)) (s : String) : List (String × Nat) :=
  if files.any (fun p => p.1 == s) then
    files.map (fun p => if p.1 == s then (p.1, p.2 + 1) else p)
  else files ++ [(s, 1)]

/-- The body of `for (const mapping of bundle.map.mappings())` in
`createSourceWastedBytes`: the absolute offset of loop iteration `i` is
`lineOffsets[mapping.lineNumber] + i` (propagating `undefined`/`NaN` as
`none`), and the per-source counter is bumped whenever the offset is unused
in every supplied bitmap. -/
def processMapping (wasteData : List WasteData) (lineLengths lineOffsets : List Nat)
    (files : List (String × Nat)) (mapping : SourceMapEntry) : List (String × Nat) :=
  let lineOffset : Option Nat := lineOffsets.get? mapping.lineNumber
  let lastCol : Option Int :=
    lastColumnOfMapping mapping.lastColumnNumber (lineLengths.get? mapping.lineNumber)
  (testedCols mapping.columnNumber lastCol).foldl
    (fun files i =>
      let offset : Option Int := lineOffset.map (fun lo => (lo : Int) + i)
      if wasteData.all (fun d => testOffset d offset) then recordIncr files mapping.sourceURL
      else files)
    files

/-- The sort `Object.entries(files).sort((a, b) => b.unused - a.unused)` followed by
re-insertion into a fresh object: a stable descending sort on the counts,
keys kept in the sorted order. -/
def sortByCountDesc (files : List (String × Nat)) : List (String × Nat) :=
  List.insertionSort (fun a b => b.2 ≤ a.2) files

/-- The method `UnusedJavascriptSummary.createSourceWastedBytes`.  The guard
`if (!bundle.script.content) return;` fires on missing content and on the
empty string (both falsy) and yields `undefined` (`none`).  The `lengths`
parameter is accepted but never read, as in the source. -/
def createSourceWastedBytes (wasteData : List WasteData) (bundle : Bundle)
    (lengths : Lengths) : Option (List (String × Nat)) :=
  match bundle.script.content with
  | none => none
  | some content =>
    if content = [] then none
    else
      let lineLengths := (splitLines content).map (fun l => l.length)
      let lineOffsets := lineOffsetsFrom 0 lineLengths
      let files := bundle.mappings.foldl (processMapping wasteData lineLengths lineOffsets) []
      some (sortByCountDesc files)

/-- The method `UnusedJavascriptSummary.compute_` (the `await` boundary is the external
estimator, passed as a pure parameter).  Without a bundle the `mergeWaste`
object is returned as-is (no `sourcesWastedBytes` property); with a bundle
the property is always assigned, holding whatever
`createSourceWastedBytes` returned — possibly `undefined` (`some none`). -/
def compute_ (estimateTransferSize : NetworkRecord → Nat → String → Rat)
    (data : ComputeInput) : Summary :=
  let wasteData := data.scriptCoverages.map computeWaste
  let lengths := determineLengths estimateTransferSize wasteData data.networkRecord
  let item := mergeWaste wasteData data.networkRecord.url lengths
  match data.bundle with
  | none => item
  | some bundle =>
      { item with
        sourcesWastedBytes := some (createSourceWastedBytes wasteData bundle lengths) }

/-- Whether range `r` puts byte offset `i` inside a zero-count span:
the condition under which the marking loop writes a 1 at `i`. -/
def coversB (i : Nat) (r : Range) : Bool :=
  r.count == 0 && decide (r.startOffset ≤ (i : Int)) && decide ((i : Int) < r.endOffset)

/-- The last-column resolution as claim C4 words it: `end` column is
`lastGeneratedColumnOnLine - 1` whenever a next-column value exists, with the
full line length only when none exists.  This follows the claim text, not the
source; it is compared against `lastColumnOfMapping`. -/
def lastColumnOfMappingSpec (lastColumnNumber : Option Int) (lineLength : Option Nat) : Option Int :=
  match lastColumnNumber with
  | some c => some (c - 1)
  | none => lineLength.map Int.ofNat

/-- Variant of `processMapping` with the claim-C4 last-column rule substituted;
everything else is as in the source. -/
def processMappingSpecC4 (wasteData : List WasteData) (lineLengths lineOffsets : List Nat)
    (files : List (String × Nat)) (mapping : SourceMapEntry) : List (String × Nat) :=
  let lineOffset : Option Nat := lineOffsets.get? mapping.lineNumber
  let lastCol : Option Int :=
    lastColumnOfMappingSpec mapping.lastColumnNumber (lineLengths.get? mapping.lineNumber)
  (testedCols mapping.columnNumber lastCol).foldl
    (fun files i =>
      let offset : Option Int := lineOffset.map (fun lo => (lo : Int) + i)
      if wasteData.all (fun d => testOffset d offset) then recordIncr files mapping.sourceURL
      else files)
    files

/-- Variant of `createSourceWastedBytes` with the claim-C4 last-column rule substituted
(the only difference from the source embedding). -/
def createSourceWastedBytesSpecC4 (wasteData : List WasteData) (bundle : Bundle)
    (lengths : Lengths) : Option (List (String × Nat)) :=
  match bundle.script.content with
  | none => none
  | some content =>
    if content = [] then none
    else
      let lineLengths := (splitLines content).map (fun l => l.length)
      let lineOffsets := lineOffsetsFrom 0 lineLengths
      let files := bundle.mappings.foldl (processMappingSpecC4 wasteData lineLengths lineOffsets) []
      some (sortByCountDesc files)

/-- Characterization device for claim C10: `processMapping` with the
per-offset unusedness check replaced by the constant `true`, so every tested
offset is attributed. -/
def processMappingAll (lineLengths _lineOffsets : List Nat)
    (files : List (String × Nat)) (mapping : SourceMapEntry) : List (String × Nat) :=
  let lastCol : Option Int :=
    lastColumnOfMapping mapping.lastColumnNumber (lineLengths.get? mapping.lineNumber)
  (testedCols mapping.columnNumber lastCol).foldl
    (fun files _ => recordIncr files mapping.sourceURL)
    files

/-- Variant of `createSourceWastedBytes` with the per-offset check replaced by `true`:
attributes every byte covered by some mapping entry to its source. -/
def attributeAllCovered (bundle : Bundle) : Option (List (String × Nat)) :=
  match bundle.script.content with
  | none => none
  | some content =>
    if content = [] then none
    else
      let lineLengths := (splitLines content).map (fun l => l.length)
      let lineOffsets := lineOffsetsFrom 0 lineLengths
      some (sortByCountDesc (bundle.mappings.foldl (processMappingAll lineLengths lineOffsets) []))

/-- Transfer-size estimator stub returning 0, for concrete instances. -/
def estZero : NetworkRecord → Nat → String → Rat := fun _ _ _ => 0

/-- Transfer-size estimator stub returning 10, for concrete instances. -/
def estTen : NetworkRecord → Nat → String → Rat := fun _ _ _ => 10

/-- A `Lengths` value with every field 0 (the `lengths` argument of
`createSourceWastedBytes` is never read by it). -/
def lengthsZero : Lengths := ⟨0, 0, 0⟩

/-- Claim C2, execution A: one range `[0, 100)` with count 0. -/
def covA : ScriptCoverage := ⟨[⟨[⟨0, 100, 0⟩]⟩]⟩

/-- Claim C2, execution B: one range `[0, 100)` with count 5. -/
def covB : ScriptCoverage := ⟨[⟨[⟨0, 100, 5⟩]⟩]⟩

/-- A bundle over a 100-byte single-line script with one mapping at column 0
attributed to `a.js`. -/
def bundle100 : Bundle := ⟨⟨some (List.replicate 100 'a')⟩, [⟨0, 0, none, "a.js"⟩]⟩

/-- A fully-unused 10-byte waste record. -/
def wdC4 : WasteData := ⟨List.replicate 10 true, 10, 10⟩

/-- A bundle over a 10-byte single-line script whose single mapping has the
next mapping on the line starting at column 1 (`lastColumnNumber = 1`). -/
def bundleC4 : Bundle := ⟨⟨some (List.replicate 10 'a')⟩, [⟨0, 0, some 1, "a.js"⟩]⟩

/-- Structurally invalid coverage: a range with negative `startOffset` and a
range with `endOffset < startOffset`, both with count 0. -/
def covBad : ScriptCoverage := ⟨[⟨[⟨-3, 2, 0⟩, ⟨5, 2, 0⟩]⟩]⟩

/-- Orchestrator input holding only the invalid coverage. -/
def inputBad : ComputeInput := ⟨⟨"u"⟩, [covBad], none⟩

/-- Coverage whose only range has `endOffset < startOffset`. -/
def covInv : ScriptCoverage := ⟨[⟨[⟨5, 2, 0⟩]⟩]⟩

/-- Orchestrator input holding only `covInv`. -/
def inputInv : ComputeInput := ⟨⟨"u"⟩, [covInv], none⟩

/-- A bundle with no raw script text. -/
def bundleNoText : Bundle := ⟨⟨none⟩, []⟩

/-- Orchestrator input supplying `bundleNoText`. -/
def inputNoText : ComputeInput := ⟨⟨"u"⟩, [], some bundleNoText⟩

/-- A two-byte single-line bundle with one mapping to `a.js`. -/
def bundleC10 : Bundle := ⟨⟨some ['a', 'b']⟩, [⟨0, 0, none, "a.js"⟩]⟩

/-- A two-line bundle, line 0 mapped to `a.js` and line 1 to `b.js`. -/
def bundleTwo : Bundle := ⟨⟨some ['a', 'b', '\n', 'c']⟩, [⟨0, 0, none, "a.js"⟩, ⟨1, 0, none, "b.js"⟩]⟩

/-- Orchestrator input supplying `bundleTwo` and no executions. -/
def inputTwo : ComputeInput := ⟨⟨"u"⟩, [], some bundleTwo⟩

/-- A 2-byte waste record with one unused byte. -/
def wdSmall : WasteData := ⟨[true, false], 1, 2⟩

/-- A 1-byte fully-unused waste record. -/
def wdOne : WasteData := ⟨[true], 1, 1⟩

/-- The marking step of `computeWaste`, applied per range. -/
def markStep (bm : List Bool) (r : Range) : List Bool :=
  if r.count = 0 then markRange bm r.startOffset r.endOffset else bm

theorem length_markRangeAux (idx : Nat) (s e : Int) (bm : List Bool) :
    (markRangeAux idx s e bm).length = bm.length := by
  induction bm generalizing idx with
  | nil => rfl
  | cons b rest ih => simp [markRangeAux, ih]

theorem getElem?_markRangeAux (idx : Nat) (s e : Int) (bm : List Bool) (i : Nat) :
    (markRangeAux idx s e bm)[i]? =
      bm[i]?.map (fun b => if s ≤ (idx : Int) + i ∧ (idx : Int) + i < e then true else b) := by
  induction bm generalizing idx i with
  | nil => simp [markRangeAux]
  | cons b rest ih =>
    cases i with
    | zero => simp [markRangeAux]
    | succ n =>
      have h : (idx : Int) + 1 + (n : Int) = (idx : Int) + ((n : Int) + 1) := by ring
      simpa [markRangeAux, h] using ih (idx + 1) n

theorem getElem?_markRange (s e : Int) (bm : List Bool) (i : Nat) :
    (markRange bm s e)[i]? =
      bm[i]?.map (fun b => if s ≤ (i : Int) ∧ (i : Int) < e then true else b) := by
  simpa [markRange] using getElem?_markRangeAux 0 s e bm i

theorem length_markStepFold (rs : List Range) (bm : List Bool) :
    (rs.foldl markStep bm).length = bm.length := by
  induction rs generalizing bm with
  | nil => rfl
  | cons r rs ih =>
    rw [List.foldl_cons, ih]
    unfold markStep
    split
    · exact length_markRangeAux 0 _ _ bm
    · rfl

theorem getElem?_markStepFold (rs : List Range) (bm : List Bool) (i : Nat) :
    (rs.foldl markStep bm)[i]? = bm[i]?.map (fun b => b || rs.any (coversB i)) := by
  induction rs generalizing bm with
  | nil => simp
  | cons r rs ih =>
    rw [List.foldl_cons, ih]
    unfold markStep
    by_cases hc : r.count = 0
    · rw [if_pos hc, getElem?_markRange]
      cases hbm : bm[i]? with
      | none => simp
      | some b =>
        simp only [Option.map_some, List.any_cons, coversB, hc]
        by_cases hs : r.startOffset ≤ (i : Int)
        · by_cases he : (i : Int) < r.endOffset
          · simp [hs, he]
          · simp [hs, he]
        · simp [hs]
    · rw [if_neg hc]
      cases hbm : bm[i]? with
      | none => simp
      | some b =>
        have hb : (r.count == 0) = false := by simpa using hc
        simp [List.any_cons, coversB, hb]

theorem getElem?_replicate_false (n m : Nat) :
    (List.replicate n false)[m]? = if m < n then some false else none := by
  simp [List.getElem?_replicate]

theorem getD_replicate_false (n m : Nat) :
    (List.replicate n false).getD m false = false := by
  rw [List.getD_eq_getElem?_getD, List.getElem?_replicate]
  split <;> rfl

theorem computeWaste_length (cov : ScriptCoverage) :
    (computeWaste cov).unusedByIndex.length = (computeWaste cov).contentLength := by
  show ((allRanges cov).foldl markStep _).length = _
  rw [length_markStepFold, List.length_replicate]
  rfl

theorem computeWaste_getElem? (cov : ScriptCoverage) (i : Nat)
    (h : i < (computeWaste cov).contentLength) :
    (computeWaste cov).unusedByIndex[i]? = some ((allRanges cov).any (coversB i)) := by
  have h2 : i < ((allRanges cov).foldl (fun (m : Int) (r : Range) => max m r.endOffset) 0).toNat := h
  show ((allRanges cov).foldl markStep
      (List.replicate
        (((allRanges cov).foldl (fun (m : Int) (r : Range) => max m r.endOffset) 0).toNat) false))[i]?
    = _
  rw [getElem?_markStepFold, getElem?_replicate_false, if_pos h2]
  simp

theorem le_foldl_max (rs : List Range) (a : Int) :
    a ≤ rs.foldl (fun m r => max m r.endOffset) a := by
  induction rs generalizing a with
  | nil => exact le_refl a
  | cons r rs ih => exact le_trans (le_max_left a r.endOffset) (ih _)

theorem foldl_max_le_of_mem (rs : List Range) (a : Int) :
    ∀ r ∈ rs, r.endOffset ≤ rs.foldl (fun m r => max m r.endOffset) a := by
  induction rs generalizing a with
  | nil => intro r hr; cases hr
  | cons r0 rs ih =>
    intro r hr
    rcases List.mem_cons.mp hr with h | h
    · subst h
      exact le_trans (le_max_right a r.endOffset) (le_foldl_max rs _)
    · exact ih _ r h

theorem foldl_max_attained (rs : List Range) (a : Int) :
    rs.foldl (fun m r => max m r.endOffset) a = a
      ∨ ∃ r ∈ rs, rs.foldl (fun m r => max m r.endOffset) a = r.endOffset := by
  induction rs generalizing a with
  | nil => exact Or.inl rfl
  | cons r0 rs ih =>
    rcases ih (max a r0.endOffset) with h | ⟨r, hr, hEq⟩
    · rcases le_total a r0.endOffset with hle | hle
      · right
        refine ⟨r0, List.mem_cons_self .., ?_⟩
        rw [List.foldl_cons, h, max_eq_right hle]
      · left
        rw [List.foldl_cons, h, max_eq_left hle]
    · right
      exact ⟨r, List.mem_cons_of_mem _ hr, hEq⟩

theorem foldl_fixed {α β : Type} (f : α → β → α) (l : List β) (a : α)
    (h : ∀ acc x, x ∈ l → f acc x = acc) : l.foldl f a = a := by
  induction l generalizing a with
  | nil => rfl
  | cons x l ih =>
    rw [List.foldl_cons, h a x (List.mem_cons_self ..)]
    exact ih a (fun acc y hy => h acc y (List.mem_cons_of_mem _ hy))

theorem contentLength_cast (cov : ScriptCoverage) :
    ((computeWaste cov).contentLength : Int)
      = (allRanges cov).foldl (fun (m : Int) (r : Range) => max m r.endOffset) 0 :=
  Int.toNat_of_nonneg (le_foldl_max _ _)

/-- C1: for every `ScriptCoverage` input, `computeWaste` returns a
`WasteData` whose `contentLength` is the maximum `endOffset` over all ranges
of all functions (an upper bound on every `endOffset`, attained unless it is
0, and 0 when there are no ranges), whose bitmap has exactly that length and
marks an offset unused exactly when some range with execution count 0
contains it (ranges with nonzero count leave offsets at their current
value), and whose `unusedLength` is the count of unused bits; empty input
yields `contentLength` 0 and an empty bitmap. -/
theorem computeWaste_spec (cov : ScriptCoverage) :
    (computeWaste cov).unusedByIndex.length = (computeWaste cov).contentLength
    ∧ (∀ r ∈ allRanges cov, r.endOffset ≤ ((computeWaste cov).contentLength : Int))
    ∧ ((computeWaste cov).contentLength = 0
        ∨ ∃ r ∈ allRanges cov, r.endOffset = ((computeWaste cov).contentLength : Int))
    ∧ (∀ i : Nat, i < (computeWaste cov).contentLength →
        ((computeWaste cov).unusedByIndex.getD i false = true ↔
          ∃ r ∈ allRanges cov, r.count = 0 ∧ r.startOffset ≤ (i : Int) ∧ (i : Int) < r.endOffset))
    ∧ (computeWaste cov).unusedLength = (computeWaste cov).unusedByIndex.count true
    ∧ (cov.functions = [] →
        (computeWaste cov).contentLength = 0 ∧ (computeWaste cov).unusedByIndex = []) := by
  refine ⟨computeWaste_length cov, ?_, ?_, ?_, rfl, ?_⟩
  · intro r hr
    rw [contentLength_cast]
    exact foldl_max_le_of_mem _ _ r hr
  · rcases foldl_max_attained (allRanges cov) 0 with h | ⟨r, hr, hEq⟩
    · left
      have : ((computeWaste cov).contentLength : Int) = 0 := by rw [contentLength_cast, h]
      exact_mod_cast this
    · right
      exact ⟨r, hr, by rw [contentLength_cast, hEq]⟩
  · intro i hi
    rw [List.getD_eq_getElem?_getD, computeWaste_getElem? cov i hi]
    simp only [Option.getD_some, List.any_eq_true, coversB, Bool.and_eq_true,
      decide_eq_true_eq, beq_iff_eq]
    constructor
    · rintro ⟨r, hr, ⟨hc, hs⟩, he⟩
      exact ⟨r, hr, hc, hs, he⟩
    · rintro ⟨r, hr, hc, hs, he⟩
      exact ⟨r, hr, ⟨hc, hs⟩, he⟩
  · intro h
    have hall : allRanges cov = [] := by rw [allRanges, h]; rfl
    constructor
    · show ((allRanges cov).foldl (fun (m : Int) (r : Range) => max m r.endOffset) 0).toNat = 0
      rw [hall]
      rfl
    · show (allRanges cov).foldl markStep
        (List.replicate
          (((allRanges cov).foldl (fun (m : Int) (r : Range) => max m r.endOffset) 0).toNat) false)
        = []
      rw [hall]
      rfl

theorem computeWaste_unused_le (cov : ScriptCoverage) :
    (computeWaste cov).unusedLength ≤ (computeWaste cov).contentLength := by
  calc (computeWaste cov).unusedLength
      = (computeWaste cov).unusedByIndex.count true := rfl
    _ ≤ (computeWaste cov).unusedByIndex.length := List.count_le_length _ _
    _ = (computeWaste cov).contentLength := computeWaste_length cov

theorem foldl_add_le_foldl_add (l : List WasteData) (a b : Nat) (hab : a ≤ b)
    (h : ∀ d ∈ l, d.unusedLength ≤ d.contentLength) :
    l.foldl (fun acc u => acc + u.unusedLength) a
      ≤ l.foldl (fun acc u => acc + u.contentLength) b := by
  induction l generalizing a b with
  | nil => simpa using hab
  | cons d l ih =>
    rw [List.foldl_cons, List.foldl_cons]
    exact ih _ _ (Nat.add_le_add hab (h d (List.mem_cons_self ..)))
      (fun x hx => h x (List.mem_cons_of_mem _ hx))

theorem totalUnused_le_totalContent (l : List WasteData)
    (h : ∀ d ∈ l, d.unusedLength ≤ d.contentLength) :
    totalUnused l ≤ totalContent l :=
  foldl_add_le_foldl_add l 0 0 (le_refl 0) h

theorem wastedRatioOf_bounds (unused content : Nat) (h : unused ≤ content) :
    ∃ q : Rat, wastedRatioOf unused content = JSNum.num q ∧ 0 ≤ q ∧ q ≤ 1 := by
  by_cases hc : content = 0
  · subst hc
    have hu : unused = 0 := Nat.le_zero.mp h
    subst hu
    exact ⟨0, rfl, le_refl 0, zero_le_one⟩
  · refine ⟨(unused : Rat) / (content : Rat), ?_, ?_, ?_⟩
    · show jsOrZero (jsDiv unused content) = _
      rw [jsDiv, if_neg hc]
      rfl
    · exact div_nonneg (Nat.cast_nonneg unused) (Nat.cast_nonneg content)
    · rw [div_le_one (by exact_mod_cast Nat.pos_of_ne_zero hc)]
      exact_mod_cast h

/-- C9 (implicit invariant): for every input, `computeWaste` returns a
bitmap whose length equals `contentLength` with
`unusedLength ≤ contentLength`; consequently any aggregated list of
`computeWaste` outputs has `unused ≤ content` and the wasted ratio is a
finite rational in `[0, 1]`. -/
theorem computeWaste_invariants (cov : ScriptCoverage) (covs : List ScriptCoverage) :
    (computeWaste cov).unusedByIndex.length = (computeWaste cov).contentLength
    ∧ (computeWaste cov).unusedLength ≤ (computeWaste cov).contentLength
    ∧ totalUnused (covs.map computeWaste) ≤ totalContent (covs.map computeWaste)
    ∧ ∃ q : Rat,
        wastedRatioOf (totalUnused (covs.map computeWaste)) (totalContent (covs.map computeWaste))
          = JSNum.num q ∧ 0 ≤ q ∧ q ≤ 1 := by
  have h142 : ∀ d ∈ covs.map computeWaste, d.unusedLength ≤ d.contentLength := by
    intro d hd
    rcases List.mem_map.mp hd with ⟨c, _, rfl⟩
    exact computeWaste_unused_le c
  have hle := totalUnused_le_totalContent _ h142
  exact ⟨computeWaste_length cov, computeWaste_unused_le cov, hle,
    wastedRatioOf_bounds _ _ hle⟩

theorem wastedRatioOf_eq (unused content : Nat) (h : content = 0 → unused = 0) :
    wastedRatioOf unused content
      = JSNum.num (if content = 0 then 0 else (unused : Rat) / (content : Rat)) := by
  by_cases hc : content = 0
  · rw [if_pos hc, hc, h hc]
    rfl
  · rw [if_neg hc]
    show jsOrZero (jsDiv unused content) = _
    rw [jsDiv, if_neg hc]
    rfl

/-- C3: for every list of `WasteData` satisfying the data-model invariant
(`unusedLength` is the count of set bits, `contentLength` the bitmap
length), `mergeWaste` computes `wastedRatio = unused / content` with the
ratio 0 when `content` is 0 (a finite rational, never NaN or infinity),
`wastedBytes = round(lengths.transfer × wastedRatio)` and
`wastedPercent = 100 × wastedRatio`; the empty list yields `content = 0`,
`unused = 0`, ratio 0 and `wastedBytes = 0`. -/
theorem mergeWaste_spec (wasteData : List WasteData) (url : String) (lengths : Lengths)
    (hv : ∀ d ∈ wasteData,
      d.unusedLength = d.unusedByIndex.count true ∧ d.contentLength = d.unusedByIndex.length) :
    wastedRatioOf (totalUnused wasteData) (totalContent wasteData)
      = JSNum.num (if totalContent wasteData = 0 then 0
          else (totalUnused wasteData : Rat) / (totalContent wasteData : Rat))
    ∧ (mergeWaste wasteData url lengths).wastedBytes
      = JSNum.num ((⌊lengths.transfer
          * (if totalContent wasteData = 0 then 0
              else (totalUnused wasteData : Rat) / (totalContent wasteData : Rat)) + 1 / 2⌋ : Int) : Rat)
    ∧ (mergeWaste wasteData url lengths).wastedPercent
      = JSNum.num (100
          * (if totalContent wasteData = 0 then 0
              else (totalUnused wasteData : Rat) / (totalContent wasteData : Rat)))
    ∧ (wasteData = [] → totalContent wasteData = 0 ∧ totalUnused wasteData = 0
        ∧ wastedRatioOf (totalUnused wasteData) (totalContent wasteData) = JSNum.num 0
        ∧ (mergeWaste wasteData url lengths).wastedBytes = JSNum.num 0) := by
  have hle : totalUnused wasteData ≤ totalContent wasteData := by
    apply totalUnused_le_totalContent
    intro d hd
    rcases hv d hd with ⟨h1, h2⟩
    rw [h1, h2]
    exact List.count_le_length _ _
  have hz : totalContent wasteData = 0 → totalUnused wasteData = 0 := by
    intro h
    exact Nat.le_zero.mp (h ▸ hle)
  have hrat := wastedRatioOf_eq (totalUnused wasteData) (totalContent wasteData) hz
  refine ⟨hrat, ?_, ?_, ?_⟩
  · show jsRound (jsMulQ lengths.transfer
      (wastedRatioOf (totalUnused wasteData) (totalContent wasteData))) = _
    rw [hrat]
    rfl
  · show jsMulQ 100 (wastedRatioOf (totalUnused wasteData) (totalContent wasteData)) = _
    rw [hrat]
    rfl
  · intro h
    subst h
    refine ⟨rfl, rfl, rfl, ?_⟩
    show jsRound (jsMulQ lengths.transfer (wastedRatioOf 0 0)) = JSNum.num 0
    have h1 : wastedRatioOf 0 0 = JSNum.num 0 := rfl
    rw [h1]
    show JSNum.num ((⌊lengths.transfer * 0 + 1 / 2⌋ : Int) : Rat) = JSNum.num 0
    norm_num

theorem mergeWaste_spec_witness :
    (∀ d ∈ [wdSmall],
      d.unusedLength = d.unusedByIndex.count true ∧ d.contentLength = d.unusedByIndex.length)
    ∧ (wastedRatioOf (totalUnused [wdSmall]) (totalContent [wdSmall])
        = JSNum.num (if totalContent [wdSmall] = 0 then 0
            else (totalUnused [wdSmall] : Rat) / (totalContent [wdSmall] : Rat))
      ∧ (mergeWaste [wdSmall] "u" ⟨2, 1, 7⟩).wastedBytes
        = JSNum.num ((⌊(⟨2, 1, 7⟩ : Lengths).transfer
            * (if totalContent [wdSmall] = 0 then 0
                else (totalUnused [wdSmall] : Rat) / (totalContent [wdSmall] : Rat)) + 1 / 2⌋ : Int) : Rat)
      ∧ (mergeWaste [wdSmall] "u" ⟨2, 1, 7⟩).wastedPercent
        = JSNum.num (100
            * (if totalContent [wdSmall] = 0 then 0
                else (totalUnused [wdSmall] : Rat) / (totalContent [wdSmall] : Rat)))
      ∧ ([wdSmall] = ([] : List WasteData) → totalContent [wdSmall] = 0 ∧ totalUnused [wdSmall] = 0
          ∧ wastedRatioOf (totalUnused [wdSmall]) (totalContent [wdSmall]) = JSNum.num 0
          ∧ (mergeWaste [wdSmall] "u" ⟨2, 1, 7⟩).wastedBytes = JSNum.num 0)) :=
  ⟨by decide, mergeWaste_spec [wdSmall] "u" ⟨2, 1, 7⟩ (by decide)⟩

theorem createSourceWastedBytes_none (wd : List WasteData) (ms : List SourceMapEntry)
    (lengths : Lengths) :
    createSourceWastedBytes wd ⟨⟨none⟩, ms⟩ lengths = none := rfl

theorem createSourceWastedBytes_some (wd : List WasteData) (ms : List SourceMapEntry)
    (lengths : Lengths) (content : List Char) :
    createSourceWastedBytes wd ⟨⟨some content⟩, ms⟩ lengths
      = if content = [] then none
        else some (sortByCountDesc (ms.foldl
            (processMapping wd ((splitLines content).map (fun l => l.length))
              (lineOffsetsFrom 0 ((splitLines content).map (fun l => l.length)))) [])) := rfl

theorem testOffset_replicate_false (n u c : Nat) (o : Option Int) :
    testOffset ⟨List.replicate n false, u, c⟩ o = false := by
  cases o with
  | none => rfl
  | some i =>
    show (if i < 0 then false else (List.replicate n false).getD i.toNat false) = false
    split
    · rfl
    · exact getD_replicate_false n i.toNat

/-- C2: for two executions over the same 100-byte script, A with a single
range `[0, 100)` of count 0 and B with a single range `[0, 100)` of count 5,
`determineLengths` reports content 200 and unused 100 (plain summation),
while `createSourceWastedBytes` attributes zero bytes to any source for any
bundle, because attribution requires an offset unused in every supplied
bitmap (logical AND across executions) and B marks none. -/
theorem determineLengths_vs_attribution :
    (∀ (est : NetworkRecord → Nat → String → Rat) (nr : NetworkRecord),
        (determineLengths est [computeWaste covA, computeWaste covB] nr).content = 200
        ∧ (determineLengths est [computeWaste covA, computeWaste covB] nr).unused = 100)
    ∧ ∀ (bundle : Bundle) (lengths : Lengths) (l : List (String × Nat)),
        createSourceWastedBytes [computeWaste covA, computeWaste covB] bundle lengths = some l →
        l = [] := by
  constructor
  · intro est nr
    constructor
    · show totalContent [computeWaste covA, computeWaste covB] = 200
      decide
    · show totalUnused [computeWaste covA, computeWaste covB] = 100
      decide
  · intro bundle lengths l h
    have hBfalse : ∀ o : Option Int, testOffset (computeWaste covB) o = false := by
      have hB : computeWaste covB = ⟨List.replicate 100 false, 0, 100⟩ := by decide
      rw [hB]
      exact testOffset_replicate_false 100 0 100
    obtain ⟨⟨ocontent⟩, ms⟩ := bundle
    cases ocontent with
    | none =>
      rw [createSourceWastedBytes_none] at h
      cases h
    | some content =>
      rw [createSourceWastedBytes_some] at h
      by_cases hnil : content = []
      · rw [if_pos hnil] at h
        cases h
      · rw [if_neg hnil] at h
        have hfiles : ms.foldl
            (processMapping [computeWaste covA, computeWaste covB]
              ((splitLines content).map (fun l => l.length))
              (lineOffsetsFrom 0 ((splitLines content).map (fun l => l.length)))) [] = [] := by
          apply foldl_fixed
          intro acc m _
          unfold processMapping
          apply foldl_fixed
          intro acc2 i _
          simp [hBfalse]
        rw [hfiles] at h
        injection h with h2
        exact h2.symm

theorem determineLengths_vs_attribution_witness :
    createSourceWastedBytes [computeWaste covA, computeWaste covB] bundle100 lengthsZero
      = some ([] : List (String × Nat))
    ∧ ([] : List (String × Nat)) = [] :=
  ⟨by decide,
    determineLengths_vs_attribution.2 bundle100 lengthsZero [] (by decide)⟩

/-- C5: reading an offset at or beyond the length of a bitmap never faults
(the embedding is a total function): the read is `false` ("used"), and any
`every`-test over a waste-data list containing that bitmap fails, so the
offset contributes no attribution. -/
theorem bitmap_out_of_bounds_is_used (d : WasteData) (o : Int)
    (h : (d.unusedByIndex.length : Int) ≤ o) :
    testOffset d (some o) = false
    ∧ ∀ (wasteData : List WasteData), d ∈ wasteData →
        wasteData.all (fun x => testOffset x (some o)) = false := by
  have h0 : ¬ o < 0 := by omega
  have hlen : d.unusedByIndex.length ≤ o.toNat := by omega
  have h1 : testOffset d (some o) = false := by
    show (if o < 0 then false else d.unusedByIndex.getD o.toNat false) = false
    rw [if_neg h0]
    exact List.getD_eq_default _ _ hlen
  refine ⟨h1, ?_⟩
  intro wd hmem
  rw [Bool.eq_false_iff]
  intro hall
  rw [List.all_eq_true] at hall
  have hd := hall d hmem
  rw [h1] at hd
  cases hd

theorem bitmap_out_of_bounds_is_used_witness :
    ((wdOne.unusedByIndex.length : Int) ≤ 5)
    ∧ (testOffset wdOne (some 5) = false
      ∧ ∀ (wasteData : List WasteData), wdOne ∈ wasteData →
          wasteData.all (fun x => testOffset x (some 5)) = false) :=
  ⟨by decide, bitmap_out_of_bounds_is_used wdOne 5 (by decide)⟩

/-- C4 counterexample: with `lastColumnNumber = 1` a next-column value
exists, yet the computed end column `(1 - 1) = 0` is falsy and the code falls back
to the full line length: over a fully-unused 10-byte line the code
attributes 10 bytes to `a.js` where the rule worded by the claim attributes
exactly 1. -/
theorem lastColumn_falsy_fallback_cex :
    createSourceWastedBytes [wdC4] bundleC4 lengthsZero = some [("a.js", 10)]
    ∧ createSourceWastedBytesSpecC4 [wdC4] bundleC4 lengthsZero = some [("a.js", 1)]
    ∧ createSourceWastedBytes [wdC4] bundleC4 lengthsZero
        ≠ createSourceWastedBytesSpecC4 [wdC4] bundleC4 lengthsZero := by
  refine ⟨by decide, by decide, by decide⟩

/-- C4 amended: the attributed end column is `lastColumnNumber − 1` when a
next-column value exists and differs from 1; the fallback to the full line
length fires both when no next-column value exists and when it equals 1
(the code tests JS falsiness of `lastColumnNumber - 1`, and 0 is falsy);
the loop tests every column of `[columnNumber, end]` inclusive (absolute
offsets are those columns shifted by the line start offset). -/
theorem lastColumn_characterization (lineLength : Option Nat) (col i : Int) :
    (∀ c : Int, lastColumnOfMapping (some c) lineLength
        = if c = 1 then lineLength.map Int.ofNat else some (c - 1))
    ∧ (lastColumnOfMapping none lineLength = lineLength.map Int.ofNat)
    ∧ (∀ last : Int, i ∈ testedCols col (some last) ↔ (col ≤ i ∧ i ≤ last))
    ∧ (i ∈ testedCols col none ↔ False) := by
  refine ⟨?_, rfl, ?_, by simp [testedCols]⟩
  · intro c
    show (if c - 1 = 0 then lineLength.map Int.ofNat else some (c - 1)) = _
    by_cases hc : c = 1
    · rw [if_pos (show c - 1 = 0 by omega), if_pos hc]
    · rw [if_neg (show ¬c - 1 = 0 by omega), if_neg hc]
  · intro last
    rw [show testedCols col (some last)
        = (if last < col then []
           else (List.range (last - col + 1).toNat).map (fun (k : Nat) => col + (k : Int)))
        from rfl]
    by_cases hlt : last < col
    · rw [if_pos hlt]
      simp only [List.not_mem_nil, false_iff]
      omega
    · rw [if_neg hlt]
      simp only [List.mem_map, List.mem_range]
      constructor
      · rintro ⟨k, hk, rfl⟩
        omega
      · rintro ⟨hc1, hc2⟩
        exact ⟨(i - col).toNat, by omega, by omega⟩

/-- C6 counterexample: with a bundle whose script has no raw text,
`createSourceWastedBytes` returns absent, yet the orchestrator Summary
does not omit `sourcesWastedBytes`: the property is present holding the
value `undefined` (`some none`), observably different from an object
without the property (`none`). -/
theorem missing_content_field_still_present :
    createSourceWastedBytes [] bundleNoText (determineLengths estZero [] ⟨"u"⟩) = none
    ∧ (compute_ estZero inputNoText).sourcesWastedBytes = some none
    ∧ (compute_ estZero inputNoText).sourcesWastedBytes ≠ none := by
  refine ⟨rfl, rfl, ?_⟩
  intro hcontra
  rw [show (compute_ estZero inputNoText).sourcesWastedBytes
      = some (none : Option (List (String × Nat))) from rfl] at hcontra
  cases hcontra

/-- C6 amended: when a bundle is supplied the `sourcesWastedBytes` property
is always present on the returned Summary, holding exactly what
`createSourceWastedBytes` returned (a mapping, or `undefined` when absent);
the property is omitted entirely only when no bundle is supplied. -/
theorem compute_sourcesField (est : NetworkRecord → Nat → String → Rat) (data : ComputeInput) :
    (data.bundle = none → (compute_ est data).sourcesWastedBytes = none)
    ∧ ∀ b, data.bundle = some b →
        (compute_ est data).sourcesWastedBytes
          = some (createSourceWastedBytes (data.scriptCoverages.map computeWaste) b
              (determineLengths est (data.scriptCoverages.map computeWaste)
                data.networkRecord)) := by
  obtain ⟨nr, covs, ob⟩ := data
  cases ob with
  | none =>
    constructor
    · intro _
      rfl
    · intro b hb
      cases hb
  | some b0 =>
    constructor
    · intro hcontra
      cases hcontra
    · intro b hb
      injection hb with hb
      subst hb
      rfl

theorem compute_sourcesField_witness :
    (inputTwo.bundle = some bundleTwo)
    ∧ (compute_ estZero inputTwo).sourcesWastedBytes
        = some (createSourceWastedBytes (inputTwo.scriptCoverages.map computeWaste) bundleTwo
            (determineLengths estZero (inputTwo.scriptCoverages.map computeWaste)
              inputTwo.networkRecord)) :=
  ⟨rfl, (compute_sourcesField estZero inputTwo).2 bundleTwo rfl⟩

/-- C7 counterexample: on a structurally invalid coverage (one range with a
negative `startOffset`, one with `endOffset < startOffset`, both count 0)
the computation does not fail with an error: it returns an ordinary Summary,
here counting the clipped span `[0, 2)` as fully unused waste. -/
theorem invalid_input_returns_summary :
    compute_ estTen inputBad
      = { url := "u", totalBytes := 10, wastedBytes := JSNum.num 10,
          wastedPercent := JSNum.num 100, sourcesWastedBytes := none } := by
  have hu : totalUnused ([covBad].map computeWaste) = 2 := by decide
  have hc : totalContent ([covBad].map computeWaste) = 2 := by decide
  have hrat : wastedRatioOf (totalUnused ([covBad].map computeWaste))
      (totalContent ([covBad].map computeWaste)) = JSNum.num 1 := by
    rw [hu, hc]
    show jsOrZero (jsDiv 2 2) = JSNum.num 1
    simp only [jsDiv]
    norm_num
    rfl
  show mergeWaste ([covBad].map computeWaste) "u"
      (determineLengths estTen ([covBad].map computeWaste) ⟨"u"⟩) = _
  simp only [mergeWaste]
  rw [hrat]
  congr 1
  · show jsRound (jsMulQ 10 (JSNum.num 1)) = JSNum.num 10
    show JSNum.num ((⌊(10 : Rat) * 1 + 1 / 2⌋ : Int) : Rat) = JSNum.num 10
    norm_num
  · show jsMulQ 100 (JSNum.num 1) = JSNum.num 100
    show JSNum.num ((100 : Rat) * 1) = JSNum.num 100
    norm_num

theorem computeWaste_unusedLength_zero (cov : ScriptCoverage)
    (h : ∀ r ∈ allRanges cov, r.endOffset ≤ r.startOffset) :
    (computeWaste cov).unusedLength = 0 := by
  show (computeWaste cov).unusedByIndex.count true = 0
  rw [List.count_eq_zero]
  intro hmem
  rcases List.mem_iff_getElem?.mp hmem with ⟨i, hi⟩
  have hlen : i < (computeWaste cov).unusedByIndex.length := by
    by_contra hge
    rw [List.getElem?_eq_none (Nat.le_of_not_lt hge)] at hi
    cases hi
  rw [computeWaste_length] at hlen
  rw [computeWaste_getElem? cov i hlen] at hi
  injection hi with hi
  rw [List.any_eq_true] at hi
  rcases hi with ⟨r, hr, hcov⟩
  simp only [coversB, Bool.and_eq_true, decide_eq_true_eq, beq_iff_eq] at hcov
  rcases hcov with ⟨⟨_, hs⟩, he⟩
  have := h r hr
  omega

theorem totalUnused_eq_zero (l : List WasteData) (h : ∀ d ∈ l, d.unusedLength = 0) :
    totalUnused l = 0 := by
  apply foldl_fixed
  intro acc d hd
  rw [h d hd]
  exact rfl

theorem jsRound_mul_num_zero (t : Rat) : jsRound (jsMulQ t (JSNum.num 0)) = JSNum.num 0 := by
  show JSNum.num ((⌊t * 0 + 1 / 2⌋ : Int) : Rat) = JSNum.num 0
  norm_num

theorem wastedRatioOf_zero_unused (content : Nat) :
    wastedRatioOf 0 content = JSNum.num 0 := by
  rw [wastedRatioOf_eq 0 content (fun _ => rfl)]
  by_cases hc : content = 0
  · rw [if_pos hc]
  · rw [if_neg hc, Nat.cast_zero, zero_div]

/-- C7 amended: the code performs no structural validation and never fails:
a range with `endOffset ≤ startOffset` (which covers both example classes of
invalid range, together with the clipping of negative offsets) marks
nothing, and the orchestrator still returns a normal Summary — with zero
wasted bytes when every range is such — instead of a single descriptive
error. -/
theorem no_validation_totality (est : NetworkRecord → Nat → String → Rat)
    (data : ComputeInput)
    (h : ∀ cov ∈ data.scriptCoverages, ∀ r ∈ allRanges cov, r.endOffset ≤ r.startOffset) :
    (∀ cov ∈ data.scriptCoverages, (computeWaste cov).unusedLength = 0)
    ∧ (compute_ est data).wastedBytes = JSNum.num 0 := by
  obtain ⟨nr, covs, ob⟩ := data
  have hz : ∀ cov ∈ covs, (computeWaste cov).unusedLength = 0 := by
    intro cov hcov
    exact computeWaste_unusedLength_zero cov (h cov hcov)
  refine ⟨hz, ?_⟩
  have hU : totalUnused (covs.map computeWaste) = 0 := by
    apply totalUnused_eq_zero
    intro d hd
    rcases List.mem_map.mp hd with ⟨c, hc, rfl⟩
    exact hz c hc
  have hwb : ∀ lengths : Lengths,
      (mergeWaste (covs.map computeWaste) nr.url lengths).wastedBytes = JSNum.num 0 := by
    intro lengths
    show jsRound (jsMulQ lengths.transfer
      (wastedRatioOf (totalUnused (covs.map computeWaste))
        (totalContent (covs.map computeWaste)))) = JSNum.num 0
    rw [hU, wastedRatioOf_zero_unused]
    exact jsRound_mul_num_zero _
  cases ob with
  | none => exact hwb _
  | some b0 => exact hwb _

theorem no_validation_totality_witness :
    (∀ cov ∈ inputInv.scriptCoverages, ∀ r ∈ allRanges cov, r.endOffset ≤ r.startOffset)
    ∧ ((∀ cov ∈ inputInv.scriptCoverages, (computeWaste cov).unusedLength = 0)
      ∧ (compute_ estTen inputInv).wastedBytes = JSNum.num 0) :=
  ⟨by decide, no_validation_totality estTen inputInv (by decide)⟩

/-- C8: every mapping returned by `createSourceWastedBytes` is ordered by
non-increasing unused-byte count (each entry has a count at least that of
the next). -/
theorem sourcesWastedBytes_sorted (wasteData : List WasteData) (bundle : Bundle)
    (lengths : Lengths) (l : List (String × Nat))
    (h : createSourceWastedBytes wasteData bundle lengths = some l) :
    l.Pairwise (fun a b => b.2 ≤ a.2) := by
  obtain ⟨⟨ocontent⟩, ms⟩ := bundle
  cases ocontent with
  | none =>
    rw [createSourceWastedBytes_none] at h
    cases h
  | some content =>
    rw [createSourceWastedBytes_some] at h
    by_cases hnil : content = []
    · rw [if_pos hnil] at h
      cases h
    · rw [if_neg hnil] at h
      injection h with h2
      subst h2
      haveI : IsTotal (String × Nat) (fun a b => b.2 ≤ a.2) := ⟨fun a b => le_total b.2 a.2⟩
      haveI : IsTrans (String × Nat) (fun a b => b.2 ≤ a.2) :=
        ⟨fun _ _ _ h1 h2 => le_trans h2 h1⟩
      exact List.sorted_insertionSort _ _

theorem sourcesWastedBytes_sorted_witness :
    (createSourceWastedBytes [] bundleTwo lengthsZero = some [("a.js", 3), ("b.js", 2)])
    ∧ ([("a.js", 3), ("b.js", 2)] : List (String × Nat)).Pairwise (fun a b => b.2 ≤ a.2) :=
  ⟨by decide,
    sourcesWastedBytes_sorted [] bundleTwo lengthsZero [("a.js", 3), ("b.js", 2)] (by decide)⟩

theorem attributeAllCovered_some (ms : List SourceMapEntry) (content : List Char) :
    attributeAllCovered ⟨⟨some content⟩, ms⟩
      = if content = [] then none
        else some (sortByCountDesc (ms.foldl
            (processMappingAll ((splitLines content).map (fun l => l.length))
              (lineOffsetsFrom 0 ((splitLines content).map (fun l => l.length)))) [])) := rfl

theorem recordIncr_ne_nil (files : List (String × Nat)) (s : String) :
    recordIncr files s ≠ [] := by
  by_cases hany : files.any (fun p => p.1 == s)
  · rw [recordIncr, if_pos hany]
    intro hmap
    rw [List.map_eq_nil_iff] at hmap
    subst hmap
    simp at hany
  · rw [recordIncr, if_neg hany]
    simp

theorem foldl_recordIncr_ne_nil_of_ne_nil {β : Type} (cols : List β) (s : String)
    (files : List (String × Nat)) (h : files ≠ []) :
    cols.foldl (fun f _ => recordIncr f s) files ≠ [] := by
  induction cols generalizing files with
  | nil => exact h
  | cons c cols ih =>
    rw [List.foldl_cons]
    exact ih _ (recordIncr_ne_nil _ s)

theorem foldl_recordIncr_ne_nil_of_cols {β : Type} (cols : List β) (s : String)
    (files : List (String × Nat)) (h : cols ≠ []) :
    cols.foldl (fun f _ => recordIncr f s) files ≠ [] := by
  cases cols with
  | nil => exact absurd rfl h
  | cons c cols =>
    rw [List.foldl_cons]
    exact foldl_recordIncr_ne_nil_of_ne_nil cols s _ (recordIncr_ne_nil files s)

theorem processMappingAll_ne_nil (lls los : List Nat) (files : List (String × Nat))
    (m : SourceMapEntry) (h : files ≠ []) :
    processMappingAll lls los files m ≠ [] := by
  unfold processMappingAll
  exact foldl_recordIncr_ne_nil_of_ne_nil _ _ _ h

theorem foldl_processMappingAll_ne_nil (lls los : List Nat) (ms : List SourceMapEntry)
    (files : List (String × Nat))
    (h : files ≠ [] ∨ ∃ m ∈ ms,
      testedCols m.columnNumber
        (lastColumnOfMapping m.lastColumnNumber (lls.get? m.lineNumber)) ≠ []) :
    ms.foldl (processMappingAll lls los) files ≠ [] := by
  induction ms generalizing files with
  | nil =>
    rcases h with h | ⟨m, hm, _⟩
    · exact h
    · cases hm
  | cons m0 ms ih =>
    rw [List.foldl_cons]
    rcases h with h | ⟨m, hm, hcols⟩
    · exact ih _ (Or.inl (processMappingAll_ne_nil _ _ _ _ h))
    · rcases List.mem_cons.mp hm with rfl | hm2
      · apply ih
        left
        unfold processMappingAll
        exact foldl_recordIncr_ne_nil_of_cols _ _ _ hcols
      · exact ih _ (Or.inr ⟨m, hm2, hcols⟩)

theorem sortByCountDesc_ne_nil (files : List (String × Nat)) (h : files ≠ []) :
    sortByCountDesc files ≠ [] := by
  unfold sortByCountDesc
  intro hs
  apply h
  have hl := List.length_insertionSort (fun (a b : String × Nat) => b.2 ≤ a.2) files
  rw [hs] at hl
  exact List.length_eq_zero.mp hl.symm

/-- C10: with an empty execution list the per-offset AND test
`wasteData.every(...)` is vacuously true, so `createSourceWastedBytes`
attributes every byte covered by a mapping entry to its source — it
coincides with the check-free `attributeAllCovered` — and whenever some
mapping entry covers at least one column the result is a non-absent,
non-empty mapping. -/
theorem empty_executions_attribution (bundle : Bundle) (lengths : Lengths) (content : List Char)
    (h1 : bundle.script.content = some content) (h2 : content ≠ []) :
    createSourceWastedBytes [] bundle lengths = attributeAllCovered bundle
    ∧ (∀ o : Option Int, ([] : List WasteData).all (fun d => testOffset d o) = true)
    ∧ ∀ l, createSourceWastedBytes [] bundle lengths = some l →
        (∃ m ∈ bundle.mappings,
          testedCols m.columnNumber (lastColumnOfMapping m.lastColumnNumber
            (((splitLines content).map (fun s => s.length)).get? m.lineNumber)) ≠ []) →
        l ≠ [] := by
  obtain ⟨⟨ocontent⟩, ms⟩ := bundle
  cases ocontent with
  | none => cases h1
  | some c0 =>
    injection h1 with h1
    subst h1
    have hfun : processMapping [] ((splitLines c0).map (fun l => l.length))
        (lineOffsetsFrom 0 ((splitLines c0).map (fun l => l.length)))
        = processMappingAll ((splitLines c0).map (fun l => l.length))
            (lineOffsetsFrom 0 ((splitLines c0).map (fun l => l.length))) := by
      funext files m
      unfold processMapping processMappingAll
      simp
    refine ⟨?_, fun o => rfl, ?_⟩
    · rw [createSourceWastedBytes_some, attributeAllCovered_some, if_neg h2, if_neg h2, hfun]
    · intro l hl hex
      rw [createSourceWastedBytes_some, if_neg h2] at hl
      injection hl with hl
      subst hl
      apply sortByCountDesc_ne_nil
      rw [hfun]
      exact foldl_processMappingAll_ne_nil _ _ _ _ (Or.inr hex)

theorem empty_executions_attribution_witness :
    (bundleC10.script.content = some ['a', 'b'] ∧ (['a', 'b'] : List Char) ≠ [])
    ∧ (createSourceWastedBytes [] bundleC10 lengthsZero = attributeAllCovered bundleC10
      ∧ (∀ o : Option Int, ([] : List WasteData).all (fun d => testOffset d o) = true)
      ∧ ∀ l, createSourceWastedBytes [] bundleC10 lengthsZero = some l →
          (∃ m ∈ bundleC10.mappings,
            testedCols m.columnNumber (lastColumnOfMapping m.lastColumnNumber
              (((splitLines ['a', 'b']).map (fun s => s.length)).get? m.lineNumber)) ≠ []) →
          l ≠ []) :=
  ⟨⟨rfl, by decide⟩,
    empty_executions_attribution bundleC10 lengthsZero ['a', 'b'] rfl (by decide)⟩

end UnusedJS
